import Mathlib

/-!
Verification of the query-complexity engine (a GraphQL validation rule that
statically estimates the execution cost of a query before it runs).

The development shallowly embeds the engine's source:
  - `src/QueryComplexity.ts` — the validator factory, the recursive
    selection-tree walker `calculateComplexity`, the per-field cost
    computation `calculateFieldComplexity`, and the directive evaluator
    `shouldSkipNode`;
  - `src/types.ts` — the options record, the two built-in estimators
    (`simpleEstimator`, `fieldExtensionsEstimator`) and the
    `QueryComplexityValidationError` class;
  - `src/getComplexity.ts` — the standalone calculation entry point.

Modelling conventions:
  - JavaScript numbers are modelled as `JSNumber` (a finite rational, NaN,
    or a signed infinity); running complexity totals are rationals and node
    counts are naturals.
  - The GraphQL front end (parser, schema objects, argument coercion,
    directive-argument coercion) is an external collaborator.  Schema types
    are referenced by name through a lookup table (schema object graphs are
    cyclic, so object identity is replaced by name resolution), argument
    coercion is an abstract function in the environment (it may fail, which
    the engine recovers from), and the coerced value of a conditional
    directive's condition argument is either a literal or a variable
    resolved in the variable map.
  - The mutable `visitedFragments` set with its add/delete discipline is
    embedded by passing the extended list to the fragment's recursive call
    and the original list to the continuation, which is exactly the
    add-on-entry / delete-on-exit behaviour of the source.
  - The TypeScript mutual recursion between `calculateComplexity` and
    `calculateFieldComplexity` is de-mutualised: the field logic is inlined
    in `calculateComplexity`, and `calculateFieldComplexity` is defined
    separately with the same body; `calculateComplexity_field` proves the
    two agree.
-/

namespace GQC

/-- A JavaScript number: a finite rational, NaN, or a signed infinity. -/
inductive JSNumber where
  | finite (v : ℚ)
  | nan
  | posInf
  | negInf
deriving DecidableEq, Repr

/-- Number.isFinite. -/
def jsIsFinite : JSNumber → Bool
  | .finite _ => true
  | _ => false

/-- The JavaScript comparison `x <= 0` (false for NaN). -/
def jsLeZero : JSNumber → Bool
  | .finite v => decide (v ≤ 0)
  | .negInf => true
  | _ => false

/-- The JavaScript comparison `q > m` for a finite `q` (false when `m` is NaN). -/
def jsGt (q : ℚ) : JSNumber → Bool
  | .finite v => decide (v < q)
  | .negInf => true
  | _ => false

/-- A coerced argument value, as produced by the front end's
`getArgumentValues` (src/QueryComplexity.ts line 312). -/
inductive ArgValue where
  | number (n : JSNumber)
  | boolean (b : Bool)
  | str (s : String)
  | other
deriving DecidableEq, Repr

/-- First-match association-list lookup, the embedding of `.find` on a
name-keyed list and of record indexing. -/
def assocLookup {α : Type} : List (String × α) → String → Option α
  | [], _ => none
  | (k, v) :: t, name => if k = name then some v else assocLookup t name

/-- An AST value node as inspected by `fieldExtensionsEstimator`
(src/types.ts lines 159-176).  An IntValue carries its parsed integer (the
front end's parse of the digit token). -/
inductive ValueNode where
  | intValue (value : Int)
  | stringValue (value : String)
  | listValue (values : List ValueNode)
  | otherValue

/-- A directive on a field definition's AST node, with its named arguments
(src/types.ts lines 146-157). -/
structure DirectiveNode where
  name : String
  arguments : List (String × ValueNode)

/-- The value of `field.extensions?.complexity` when it is present:
either a number or some other defined value (src/types.ts line 143). -/
inductive ExtensionValue where
  | number (n : JSNumber)
  | nonNumber
deriving DecidableEq, Repr

/-- A schema field definition, reduced to what the engine reads: the name
of its unwrapped return type (`getNamedType(fieldDef.type)`), the
`extensions.complexity` entry, and the directives on its AST node. -/
structure FieldDef where
  typeName : String
  extComplexity : Option ExtensionValue
  astDirectives : Option (List DirectiveNode)

/-- A named schema type: composite (object/interface, with its field map;
a union, which has no fields, is a composite with an empty map) or a
non-composite leaf type. -/
inductive TypeDef where
  | composite (fields : List (String × FieldDef))
  | scalar

/-- The coerced condition argument of a skip/include directive: a literal
boolean or a variable reference, resolved by the front end's coercion. -/
inductive BoolValueNode where
  | lit (b : Bool)
  | variableRef (name : String)
deriving DecidableEq, Repr

/-- The skip/include directives attached to a selection node: for each of
the two directives, the condition argument when the directive is present. -/
structure DirectivesNode where
  skipIf : Option BoolValueNode
  includeIf : Option BoolValueNode
deriving DecidableEq, Repr

/-- An AST field node, reduced to what the engine reads: the field name and
the argument AST (consumed only by the abstract coercion routine). -/
structure FieldNodeData where
  name : String
  argNodes : List (String × ValueNode)

/-- A selection node: a field, an inline fragment, or a named fragment
spread (the three kinds dispatched in src/QueryComplexity.ts lines
189-273).  Selection sets that the source tests for presence are
`Option` lists. -/
inductive Selection where
  | field (fdata : FieldNodeData) (dirs : DirectivesNode)
      (selectionSet : Option (List Selection))
  | inlineFrag (dirs : DirectivesNode) (typeCondition : Option String)
      (selectionSet : Option (List Selection))
  | fragmentSpread (dirs : DirectivesNode) (name : String)

/-- A named fragment definition: type condition and selection set. -/
structure FragmentDef where
  typeCondition : String
  selections : List Selection

/-- The per-field snapshot handed to each estimator
(src/types.ts `ComplexityEstimatorArgs`). -/
structure EstimatorArgs where
  args : List (String × ArgValue)
  childComplexity : ℚ
  field : FieldDef
  node : FieldNodeData
  type : TypeDef

/-- An estimator: returns a number or defers (`undefined`). -/
def Estimator : Type := EstimatorArgs → Option JSNumber

/-- The result pair of the walker (src/QueryComplexity.ts lines 165-168). -/
structure ComplexityResult where
  complexity : ℚ
  nodeCount : Nat
deriving DecidableEq, Repr

/-- Everything `calculateComplexity` reads from its `context`, `estimators`,
`variables` and `schema` parameters: the schema's type table, the document's
fragment table, the configured estimator chain, the boolean-valued variables
consulted by directive resolution, and the abstract argument-coercion
routine (which may fail, as `getArgumentValues` may throw). -/
structure Env where
  types : List (String × TypeDef)
  fragments : List (String × FragmentDef)
  estimators : List Estimator
  variableValues : List (String × Bool)
  coerceArgs : FieldDef → FieldNodeData → Except String (List (String × ArgValue))

/-- Resolution of a directive's condition argument against the variable
map (the front end's `getDirectiveValues` coercion at the boundary). -/
def resolveIfArg (vars : List (String × Bool)) : BoolValueNode → Option Bool
  | .lit b => some b
  | .variableRef n => assocLookup vars n

/-- Embedding of `shouldSkipNode` (src/QueryComplexity.ts lines 362-387):
a skip directive with a true condition, or an include directive with a
false condition, excludes the node. -/
def shouldSkipNode (dirs : DirectivesNode) (vars : List (String × Bool)) : Bool :=
  let skipVal := dirs.skipIf.bind (resolveIfArg vars)
  if skipVal = some true then true
  else
    let includeVal := dirs.includeIf.bind (resolveIfArg vars)
    if includeVal = some false then true
    else false

/-- Count of fragment-table entries whose name is not on the active
expansion path; the decreasing part of the traversal's termination
measure. -/
def fragsRemaining (frags : List (String × FragmentDef)) (visited : List String) : Nat :=
  (frags.filter (fun p => decide (p.1 ∉ visited))).length

theorem fragsRemaining_eq_countP (frags : List (String × FragmentDef))
    (visited : List String) :
    fragsRemaining frags visited = frags.countP (fun p => decide (p.1 ∉ visited)) := by
  simp [fragsRemaining, List.countP_eq_length_filter]

theorem fragsRemaining_lt (frags : List (String × FragmentDef))
    (visited : List String) (name : String) (frag : FragmentDef)
    (hf : assocLookup frags name = some frag) (hv : name ∉ visited) :
    fragsRemaining frags (name :: visited) < fragsRemaining frags visited := by
  rw [fragsRemaining_eq_countP, fragsRemaining_eq_countP]
  induction frags with
  | nil => simp [assocLookup] at hf
  | cons kv t ih =>
    obtain ⟨k, v⟩ := kv
    simp only [assocLookup] at hf
    rw [List.countP_cons, List.countP_cons]
    by_cases hk : k = name
    · subst hk
      have hmono : t.countP (fun p => decide (p.1 ∉ k :: visited))
          ≤ t.countP (fun p => decide (p.1 ∉ visited)) := by
        apply List.countP_mono_left
        intro a _ ha
        simp at ha ⊢
        exact ha.2
      have h1 : (decide ((k, v).1 ∉ k :: visited)) = false := by simp
      have h2 : (decide ((k, v).1 ∉ visited)) = true := by simp [hv]
      rw [h1, h2]
      have h3 : (if (false : Bool) = true then 1 else 0) = 0 := rfl
      have h4 : (if (true : Bool) = true then 1 else 0) = 1 := rfl
      rw [h3, h4]
      omega
    · simp only [hk, if_false] at hf
      have hlt := ih hf
      have hsame : (decide ((k, v).1 ∉ name :: visited))
          = (decide ((k, v).1 ∉ visited)) := by
        by_cases hmem : k ∈ visited
        · simp [List.mem_cons, hmem]
        · simp [List.mem_cons, hmem, hk]
      rw [hsame]
      omega

/-- Lookup of a field on the current type context: the composite-type check
plus `getFields()[fieldName]` (src/QueryComplexity.ts lines 295-306).
Returns the composite type together with the field definition, as both are
handed to estimators. -/
def resolveField : Option TypeDef → String → Option (TypeDef × FieldDef)
  | some (TypeDef.composite fields), name =>
    match assocLookup fields name with
    | some fd => some (TypeDef.composite fields, fd)
    | none => none
  | _, _ => none

/-- Argument coercion with the source's try/catch: a coercion failure
yields an empty argument map (src/QueryComplexity.ts lines 310-317). -/
def coercedArgs (env : Env) (fieldDef : FieldDef) (node : FieldNodeData) :
    List (String × ArgValue) :=
  match env.coerceArgs fieldDef node with
  | .ok a => a
  | .error _ => []

/-- The estimator loop (src/QueryComplexity.ts lines 339-352): the first
estimator whose result is a finite number wins. -/
def firstFiniteEstimate : List Estimator → EstimatorArgs → Option ℚ
  | [], _ => none
  | e :: es, a =>
    match e a with
    | some (JSNumber.finite v) => some v
    | _ => firstFiniteEstimate es a

/-- The per-field invocation context built by `calculateFieldComplexity`
(src/QueryComplexity.ts lines 341-347). -/
def mkEstimatorArgs (args : List (String × ArgValue)) (childComplexity : ℚ)
    (fieldDef : FieldDef) (node : FieldNodeData) (t : TypeDef) : EstimatorArgs :=
  ⟨args, childComplexity, fieldDef, node, t⟩

/-- A field's own cost: the first finite estimate, or the built-in default
`1 + childComplexity` when every estimator declines
(src/QueryComplexity.ts lines 339-356). -/
def fieldCost (ests : List Estimator) (eargs : EstimatorArgs) : ℚ :=
  match firstFiniteEstimate ests eargs with
  | some v => v
  | none => 1 + eargs.childComplexity

/-- Embedding of `calculateComplexity` (src/QueryComplexity.ts lines
173-277), with the body of `calculateFieldComplexity` (lines 282-357)
inlined in the field branch.  Totality of this definition is the
termination guarantee of the source's recursion: selection recursion is
structural and each fragment expansion strictly shrinks the set of
fragment-table entries not yet on the expansion path. -/
def calculateComplexity (env : Env) (visited : List String)
    (sels : List Selection) (parentType : Option TypeDef) (cnt : Nat) :
    ComplexityResult :=
  match sels with
  | [] => ⟨0, cnt⟩
  | sel :: rest =>
    match sel with
    | .field fdata dirs child =>
      if shouldSkipNode dirs env.variableValues then
        calculateComplexity env visited rest parentType (cnt + 1)
      else
        let fr : ComplexityResult :=
          match resolveField parentType fdata.name with
          | none => ⟨1, cnt + 1⟩
          | some (t, fieldDef) =>
            let args := coercedArgs env fieldDef fdata
            let fieldType := assocLookup env.types fieldDef.typeName
            let childR : ComplexityResult :=
              match child with
              | some cs => calculateComplexity env visited cs fieldType (cnt + 1)
              | none => ⟨0, cnt + 1⟩
            ⟨fieldCost env.estimators
               (mkEstimatorArgs args childR.complexity fieldDef fdata t),
             childR.nodeCount⟩
        let r := calculateComplexity env visited rest parentType fr.nodeCount
        ⟨fr.complexity + r.complexity, r.nodeCount⟩
    | .inlineFrag dirs tcond child =>
      if shouldSkipNode dirs env.variableValues then
        calculateComplexity env visited rest parentType (cnt + 1)
      else
        match child with
        | some cs =>
          let ftype :=
            match tcond with
            | some tn => assocLookup env.types tn
            | none => parentType
          let fr := calculateComplexity env visited cs ftype (cnt + 1)
          let r := calculateComplexity env visited rest parentType fr.nodeCount
          ⟨fr.complexity + r.complexity, r.nodeCount⟩
        | none => calculateComplexity env visited rest parentType (cnt + 1)
    | .fragmentSpread dirs name =>
      if shouldSkipNode dirs env.variableValues then
        calculateComplexity env visited rest parentType (cnt + 1)
      else if hv : name ∈ visited then
        calculateComplexity env visited rest parentType (cnt + 1)
      else
        match hf : assocLookup env.fragments name with
        | some frag =>
          let ftype := assocLookup env.types frag.typeCondition
          let fr := calculateComplexity env (name :: visited) frag.selections
            ftype (cnt + 1)
          let r := calculateComplexity env visited rest parentType fr.nodeCount
          ⟨fr.complexity + r.complexity, r.nodeCount⟩
        | none => calculateComplexity env visited rest parentType (cnt + 1)
termination_by (fragsRemaining env.fragments visited, sizeOf sels)
decreasing_by
  all_goals simp_wf
  all_goals first
    | exact Prod.Lex.left _ _
        (fragsRemaining_lt env.fragments visited _ _ (by assumption) (by assumption))
    | (apply Prod.Lex.right; simp_arith)

/-- The child traversal of a field (src/QueryComplexity.ts lines 322-337):
the complexity of the field's nested selections against the field's named
return type, or zero with an unchanged node count when there are none. -/
def childResultOf (env : Env) (visited : List String)
    (child : Option (List Selection)) (fieldDef : FieldDef) (cnt : Nat) :
    ComplexityResult :=
  match child with
  | some cs => calculateComplexity env visited cs
      (assocLookup env.types fieldDef.typeName) cnt
  | none => ⟨0, cnt⟩

/-- The estimator invocation context the engine builds for a resolved
field (src/QueryComplexity.ts lines 341-347). -/
def estArgsOf (env : Env) (visited : List String) (fdata : FieldNodeData)
    (child : Option (List Selection)) (t : TypeDef) (fieldDef : FieldDef)
    (cnt : Nat) : EstimatorArgs :=
  mkEstimatorArgs (coercedArgs env fieldDef fdata)
    (childResultOf env visited child fieldDef cnt).complexity fieldDef fdata t

/-- Embedding of `calculateFieldComplexity` (src/QueryComplexity.ts lines
282-357): default cost 1 for an unresolvable field (no child traversal),
otherwise the first finite estimate over the estimator chain, with the
`1 + childComplexity` fallback. -/
def calculateFieldComplexity (env : Env) (visited : List String)
    (fdata : FieldNodeData) (child : Option (List Selection))
    (parentType : Option TypeDef) (cnt : Nat) : ComplexityResult :=
  match resolveField parentType fdata.name with
  | none => ⟨1, cnt⟩
  | some (t, fieldDef) =>
    ⟨fieldCost env.estimators (estArgsOf env visited fdata child t fieldDef cnt),
     (childResultOf env visited child fieldDef cnt).nodeCount⟩

/-- One-step unfolding of the walker on an empty selection list. -/
theorem calculateComplexity_nil (env : Env) (visited : List String)
    (parentType : Option TypeDef) (cnt : Nat) :
    calculateComplexity env visited [] parentType cnt = ⟨0, cnt⟩ := by
  rw [calculateComplexity.eq_def]

/-- One-step unfolding of the walker on a field selection: the node count
is incremented, an excluded node is passed over, and otherwise the
de-mutualised field branch agrees with `calculateFieldComplexity`
(src/QueryComplexity.ts lines 189-206). -/
theorem calculateComplexity_field (env : Env) (visited : List String)
    (fdata : FieldNodeData) (dirs : DirectivesNode)
    (child : Option (List Selection)) (rest : List Selection)
    (parentType : Option TypeDef) (cnt : Nat) :
    calculateComplexity env visited (Selection.field fdata dirs child :: rest)
        parentType cnt =
      if shouldSkipNode dirs env.variableValues then
        calculateComplexity env visited rest parentType (cnt + 1)
      else
        let fr := calculateFieldComplexity env visited fdata child parentType (cnt + 1)
        let r := calculateComplexity env visited rest parentType fr.nodeCount
        ⟨fr.complexity + r.complexity, r.nodeCount⟩ := by
  rw [calculateComplexity.eq_def]
  cases hs : shouldSkipNode dirs env.variableValues
  · simp only [hs, Bool.false_eq_true, if_false]
    unfold calculateFieldComplexity childResultOf estArgsOf
    cases hres : resolveField parentType fdata.name with
    | none => simp
    | some tf =>
      obtain ⟨t, fieldDef⟩ := tf
      cases child <;> simp [childResultOf]
  · simp [hs]

/-- One-step unfolding of the walker on an inline fragment
(src/QueryComplexity.ts lines 207-231). -/
theorem calculateComplexity_inline (env : Env) (visited : List String)
    (dirs : DirectivesNode) (tcond : Option String)
    (child : Option (List Selection)) (rest : List Selection)
    (parentType : Option TypeDef) (cnt : Nat) :
    calculateComplexity env visited
        (Selection.inlineFrag dirs tcond child :: rest) parentType cnt =
      if shouldSkipNode dirs env.variableValues then
        calculateComplexity env visited rest parentType (cnt + 1)
      else
        match child with
        | some cs =>
          let ftype :=
            match tcond with
            | some tn => assocLookup env.types tn
            | none => parentType
          let fr := calculateComplexity env visited cs ftype (cnt + 1)
          let r := calculateComplexity env visited rest parentType fr.nodeCount
          ⟨fr.complexity + r.complexity, r.nodeCount⟩
        | none => calculateComplexity env visited rest parentType (cnt + 1) := by
  rw [calculateComplexity.eq_def]

/-- One-step unfolding of the walker on a named fragment spread: skip
check, cycle guard, fragment lookup, scoped expansion
(src/QueryComplexity.ts lines 232-273). -/
theorem calculateComplexity_spread (env : Env) (visited : List String)
    (dirs : DirectivesNode) (name : String) (rest : List Selection)
    (parentType : Option TypeDef) (cnt : Nat) :
    calculateComplexity env visited
        (Selection.fragmentSpread dirs name :: rest) parentType cnt =
      if shouldSkipNode dirs env.variableValues then
        calculateComplexity env visited rest parentType (cnt + 1)
      else if name ∈ visited then
        calculateComplexity env visited rest parentType (cnt + 1)
      else
        match assocLookup env.fragments name with
        | some frag =>
          let ftype := assocLookup env.types frag.typeCondition
          let fr := calculateComplexity env (name :: visited) frag.selections
            ftype (cnt + 1)
          let r := calculateComplexity env visited rest parentType fr.nodeCount
          ⟨fr.complexity + r.complexity, r.nodeCount⟩
        | none => calculateComplexity env visited rest parentType (cnt + 1) := by
  rw [calculateComplexity.eq_def]
  cases hs : shouldSkipNode dirs env.variableValues
  · simp only [hs, Bool.false_eq_true, if_false]
    by_cases hv : name ∈ visited
    · simp [hv]
    · simp only [hv, dite_eq_ite, if_neg, not_false_iff]
      cases hf : assocLookup env.fragments name <;> simp [hv]
  · simp [hs]

/-- The complexity component of the walker's result does not depend on the
incoming node count: the count is threaded only into the `nodeCount`
component. -/
theorem complexity_cnt_irrel (env : Env) (visited : List String)
    (sels : List Selection) (parentType : Option TypeDef) (m n : Nat) :
    (calculateComplexity env visited sels parentType m).complexity =
      (calculateComplexity env visited sels parentType n).complexity := by
  refine calculateComplexity.induct env
    (fun v s pt _ => ∀ m n : Nat,
      (calculateComplexity env v s pt m).complexity =
        (calculateComplexity env v s pt n).complexity)
    ?_ ?_ ?_ ?_ ?_ ?_ ?_ ?_ ?_ ?_ visited sels parentType 0 m n
  · intro v pt c m n
    simp [calculateComplexity_nil]
  · intro v pt c rest fdata dirs child hskip ih m n
    rw [calculateComplexity_field, calculateComplexity_field,
      if_pos hskip, if_pos hskip]
    exact ih (m + 1) (n + 1)
  · intro v pt c rest fdata dirs child hskip fr ihchild ihrest m n
    rw [calculateComplexity_field, calculateComplexity_field,
      if_neg hskip, if_neg hskip]
    simp only
    have h1 : (calculateFieldComplexity env v fdata child pt (m + 1)).complexity =
        (calculateFieldComplexity env v fdata child pt (n + 1)).complexity := by
      unfold calculateFieldComplexity childResultOf estArgsOf
      cases hres : resolveField pt fdata.name with
      | none => simp
      | some tf =>
        obtain ⟨t, fieldDef⟩ := tf
        cases child with
        | none => simp [childResultOf]
        | some cs =>
          have hc := ihchild fieldDef
          simp only at hc
          simp [childResultOf, hc (m + 1) (n + 1)]
    rw [h1]
    exact congrArg _ (ihrest _ _)
  · intro v pt c rest dirs tcond child hskip ih m n
    rw [calculateComplexity_inline, calculateComplexity_inline,
      if_pos hskip, if_pos hskip]
    exact ih (m + 1) (n + 1)
  · intro v pt c rest dirs tcond hskip cs ftype fr ihc ihc2 ihrest m n
    rw [calculateComplexity_inline, calculateComplexity_inline,
      if_neg hskip, if_neg hskip]
    simp only
    rw [ihc2 (m + 1) (n + 1)]
    exact congrArg _ (ihrest _ _)
  · intro v pt c rest dirs tcond hskip ih m n
    rw [calculateComplexity_inline, calculateComplexity_inline,
      if_neg hskip, if_neg hskip]
    exact ih (m + 1) (n + 1)
  · intro v pt c rest dirs name hskip ih m n
    rw [calculateComplexity_spread, calculateComplexity_spread,
      if_pos hskip, if_pos hskip]
    exact ih (m + 1) (n + 1)
  · intro v pt c rest dirs name hskip hmem ih m n
    rw [calculateComplexity_spread, calculateComplexity_spread,
      if_neg hskip, if_neg hskip, if_pos hmem, if_pos hmem]
    exact ih (m + 1) (n + 1)
  · intro v pt c rest dirs name hskip hmem frag hf ftype fr ihf ihf2 ihrest m n
    rw [calculateComplexity_spread, calculateComplexity_spread,
      if_neg hskip, if_neg hskip, if_neg hmem, if_neg hmem]
    simp only [hf]
    rw [ihf2 (m + 1) (n + 1)]
    exact congrArg _ (ihrest _ _)
  · intro v pt c rest dirs name hskip hmem hf ih m n
    rw [calculateComplexity_spread, calculateComplexity_spread,
      if_neg hskip, if_neg hskip, if_neg hmem, if_neg hmem]
    simp only [hf]
    exact ih (m + 1) (n + 1)

/-- Embedding of `simpleEstimator` (src/types.ts lines 222-228): a fixed
per-field cost (defaulting to 1) plus the child complexity. -/
def simpleEstimator (defaultComplexity : Option ℚ) : Estimator := fun o =>
  let dc := match defaultComplexity with
    | some v => v
    | none => 1
  some (JSNumber.finite (dc + o.childComplexity))

/-- Search for a directive by name on a field's AST node
(src/types.ts lines 147-149). -/
def findDirective (ds : List DirectiveNode) (nm : String) : Option DirectiveNode :=
  ds.find? (fun d => d.name == nm)

/-- The multiplier loop of `fieldExtensionsEstimator` (src/types.ts lines
165-176): the product over the listed names of the finite numeric argument
values, every missing or non-numeric entry contributing a factor of 1. -/
def multiplierProduct (args : List (String × ArgValue)) (vs : List ValueNode) : ℚ :=
  vs.foldl (fun acc v =>
    match v with
    | ValueNode.stringValue s =>
      match assocLookup args s with
      | some (ArgValue.number (JSNumber.finite q)) => acc * q
      | _ => acc
    | _ => acc) 1

/-- The total multiplier read from the directive's `multipliers` argument
(src/types.ts lines 165-176): 1 unless the argument is a ListValue. -/
def directiveMultiplier (args : List (String × ArgValue)) (d : DirectiveNode) : ℚ :=
  match assocLookup d.arguments "multipliers" with
  | some (ValueNode.listValue vs) => multiplierProduct args vs
  | _ => 1

/-- Embedding of `fieldExtensionsEstimator` (src/types.ts lines 141-191).
The directive branch runs only when `extensions.complexity` is undefined;
any fall-through path ends at the final numeric check on the extensions
value and returns undefined when that value is absent or not a finite
number. -/
def fieldExtensionsEstimator : Estimator := fun o =>
  match o.field.extComplexity with
  | none =>
    match o.field.astDirectives with
    | none => none
    | some ds =>
      match findDirective ds "complexity" with
      | none => none
      | some d =>
        match assocLookup d.arguments "value" with
        | some (ValueNode.intValue base) =>
          some (JSNumber.finite
            ((base : ℚ) + directiveMultiplier o.args d * o.childComplexity))
        | _ => none
  | some (ExtensionValue.number (JSNumber.finite c)) =>
    some (JSNumber.finite (c + o.childComplexity))
  | some _ => none

/-- Embedding of the `QueryComplexityValidationError` class (src/types.ts
lines 108-114): it carries the underlying error list and a message joining
the individual messages with a newline. -/
structure QueryComplexityValidationError where
  errors : List String
  message : String

/-- The class constructor (src/types.ts lines 109-113). -/
def mkQueryComplexityValidationError (errs : List String) :
    QueryComplexityValidationError :=
  ⟨errs, String.intercalate "\n" errs⟩

/-- The fixed node ceiling used by the validator
(src/QueryComplexity.ts line 18). -/
def DEFAULT_MAX_NODES : Nat := 10000

/-- The root types a schema exposes per operation kind. -/
structure SchemaRoots where
  queryType : Option TypeDef
  mutationType : Option TypeDef
  subscriptionType : Option TypeDef

/-- What the validator reads from the ambient `ValidationContext`: the
schema's roots and type table, the document's fragment table, and the
argument-coercion routine. -/
structure ValidationContextModel where
  schemaRoots : SchemaRoots
  types : List (String × TypeDef)
  fragments : List (String × FragmentDef)
  coerceArgs : FieldDef → FieldNodeData → Except String (List (String × ArgValue))

/-- Embedding of `QueryComplexityOptions` (src/types.ts lines 63-101).
`hasOnComplete` records whether the optional completion callback was
supplied. -/
structure QueryComplexityOptions where
  estimators : List Estimator
  maximumComplexity : JSNumber
  maximumNodeCount : Option Nat
  hasOnComplete : Bool
  schema : Option SchemaRoots
  variableValues : List (String × Bool)

/-- The option validation performed by `createQueryComplexityValidator`
before it returns the rule (src/QueryComplexity.ts lines 61-70).  It runs
synchronously at factory-construction time, before any document is seen;
a thrown configuration `Error` is the `Except.error` case and the produced
rule is the `Except.ok` case. -/
def createQueryComplexityValidator (opts : QueryComplexityOptions) :
    Except String QueryComplexityOptions :=
  if jsIsFinite opts.maximumComplexity = false ∨ jsLeZero opts.maximumComplexity = true then
    Except.error "Invalid maximumComplexity. Must be a positive finite number."
  else if opts.estimators.length = 0 then
    Except.error "At least one complexity estimator is required."
  else
    Except.ok opts

/-- The two structured validation errors the rule can report
(src/QueryComplexity.ts lines 118-147), with the data their extensions
carry. -/
inductive GQLError where
  | nodeLimit (limit : Nat) (actual : Nat)
  | complexityLimit (complexity : ℚ) (maximumComplexity : JSNumber)
deriving DecidableEq, Repr

/-- The message templates of the two reported errors
(src/QueryComplexity.ts lines 120 and 136). -/
def errorMessage : GQLError → String
  | .nodeLimit limit actual =>
    "Query exceeds maximum node limit of " ++ toString limit ++
      ". This query has " ++ toString actual ++ " nodes."
  | .complexityLimit c _ =>
    "Query exceeds maximum complexity. Actual complexity is " ++
      toString c.num ++ "/" ++ toString c.den ++ "."

/-- The per-document mutable state of the produced rule
(src/QueryComplexity.ts lines 73-74) together with the context's error
collector. -/
structure RuleState where
  totalComplexity : ℚ
  hasReportedError : Bool
  errors : List GQLError

/-- The state at the start of a document's validation. -/
def initialRuleState : RuleState := ⟨0, false, []⟩

/-- The schema the rule uses: the explicit option override or the ambient
context's schema (src/QueryComplexity.ts line 84). -/
def actualRoots (opts : QueryComplexityOptions) (ctx : ValidationContextModel) :
    SchemaRoots :=
  match opts.schema with
  | some r => r
  | none => ctx.schemaRoots

/-- Root-type resolution per operation kind
(src/QueryComplexity.ts lines 87-93). -/
inductive OperationType where
  | query
  | mutation
  | subscription
deriving DecidableEq, Repr

/-- An operation definition: its kind and top-level selection set. -/
structure OperationDef where
  op : OperationType
  selectionSet : Option (List Selection)

def rootTypeFor (roots : SchemaRoots) : OperationType → Option TypeDef
  | .query => roots.queryType
  | .mutation => roots.mutationType
  | .subscription => roots.subscriptionType

/-- The environment the rule hands to the walker: context tables plus the
configured estimators and variables. -/
def mkEnv (ctx : ValidationContextModel) (opts : QueryComplexityOptions) : Env :=
  ⟨ctx.types, ctx.fragments, opts.estimators, opts.variableValues, ctx.coerceArgs⟩

/-- Embedding of the `OperationDefinition` visitor
(src/QueryComplexity.ts lines 78-151): compute the operation's complexity
from an empty expansion set, overwrite the running total, then apply the
node-count check and the complexity-threshold check, each guarded by the
shared `hasReportedError` flag. -/
def handleOperation (opts : QueryComplexityOptions) (ctx : ValidationContextModel)
    (st : RuleState) (op : OperationDef) : RuleState :=
  match op.selectionSet with
  | none => st
  | some sels =>
    match rootTypeFor (actualRoots opts ctx) op.op with
    | none => st
    | some rootType =>
      let result := calculateComplexity (mkEnv ctx opts) [] sels (some rootType) 0
      let st1 : RuleState := ⟨result.complexity, st.hasReportedError, st.errors⟩
      let st2 : RuleState :=
        if DEFAULT_MAX_NODES < result.nodeCount ∧ st1.hasReportedError = false then
          ⟨st1.totalComplexity, true,
           st1.errors ++ [GQLError.nodeLimit DEFAULT_MAX_NODES result.nodeCount]⟩
        else st1
      if jsGt st2.totalComplexity opts.maximumComplexity = true ∧
          st2.hasReportedError = false then
        ⟨st2.totalComplexity, true,
         st2.errors ++ [GQLError.complexityLimit st2.totalComplexity
           opts.maximumComplexity]⟩
      else st2

/-- One validation pass over a document's operation definitions. -/
def runDocument (opts : QueryComplexityOptions) (ctx : ValidationContextModel)
    (ops : List OperationDef) : RuleState :=
  ops.foldl (handleOperation opts ctx) initialRuleState

/-- The `Document.leave` hook (src/QueryComplexity.ts lines 154-160): the
completion callback fires with the running total exactly when it was
supplied and no error has been reported. -/
def documentLeave (opts : QueryComplexityOptions) (st : RuleState) : Option ℚ :=
  if opts.hasOnComplete = true ∧ st.hasReportedError = false then
    some st.totalComplexity
  else none

/-- The safe-integer ceiling `getComplexity` configures as its maximum
complexity (src/getComplexity.ts line 92). -/
def MAX_SAFE_INTEGER : ℚ := 9007199254740991

/-- Embedding of `getComplexity` (src/getComplexity.ts lines 79-114).  The
surrounding standard semantic validation is an external collaborator; its
errors enter as `otherErrors`.  When any validation error exists the
function raises a plain error whose payload is only the joined message
string; otherwise it returns the complexity captured through the
completion callback. -/
def getComplexity (ctx : ValidationContextModel) (estimators : List Estimator)
    (variableValues : List (String × Bool)) (ops : List OperationDef)
    (otherErrors : List String) : Except String ℚ :=
  match createQueryComplexityValidator
      ⟨estimators, JSNumber.finite MAX_SAFE_INTEGER, none, true,
       some ctx.schemaRoots, variableValues⟩ with
  | .error e => .error e
  | .ok opts =>
    let st := runDocument opts ctx ops
    let calculatedComplexity :=
      match documentLeave opts st with
      | some c => c
      | none => 0
    let errors := otherErrors ++ st.errors.map errorMessage
    if errors.length = 0 then
      .ok calculatedComplexity
    else
      .error ("Query validation failed: " ++ String.intercalate ", " errors)


theorem firstFiniteEstimate_mem (es : List Estimator) (a : EstimatorArgs) (v : ℚ)
    (h : firstFiniteEstimate es a = some v) :
    ∃ e ∈ es, e a = some (JSNumber.finite v) := by
  induction es with
  | nil => simp [firstFiniteEstimate] at h
  | cons e t ih =>
    rw [firstFiniteEstimate] at h
    cases he : e a with
    | none =>
      rw [he] at h
      obtain ⟨e2, he2, hv⟩ := ih h
      exact ⟨e2, List.mem_cons_of_mem _ he2, hv⟩
    | some jn =>
      cases jn with
      | finite w =>
        rw [he] at h
        simp at h
        exact ⟨e, List.mem_cons_self _ _, by rw [he, h]⟩
      | nan =>
        rw [he] at h
        obtain ⟨e2, he2, hv⟩ := ih h
        exact ⟨e2, List.mem_cons_of_mem _ he2, hv⟩
      | posInf =>
        rw [he] at h
        obtain ⟨e2, he2, hv⟩ := ih h
        exact ⟨e2, List.mem_cons_of_mem _ he2, hv⟩
      | negInf =>
        rw [he] at h
        obtain ⟨e2, he2, hv⟩ := ih h
        exact ⟨e2, List.mem_cons_of_mem _ he2, hv⟩

theorem complexity_nonneg (env : Env)
    (hnn : ∀ e ∈ env.estimators, ∀ a v, e a = some (JSNumber.finite v) → 0 ≤ v)
    (visited : List String) (sels : List Selection)
    (parentType : Option TypeDef) (cnt : Nat) :
    0 ≤ (calculateComplexity env visited sels parentType cnt).complexity := by
  refine calculateComplexity.induct env
    (fun v s pt c => 0 ≤ (calculateComplexity env v s pt c).complexity)
    ?_ ?_ ?_ ?_ ?_ ?_ ?_ ?_ ?_ ?_ visited sels parentType cnt
  · intro v pt c
    simp [calculateComplexity_nil]
  · intro v pt c rest fdata dirs child hskip ih
    rw [calculateComplexity_field, if_pos hskip]
    exact ih
  · intro v pt c rest fdata dirs child hskip fr ihchild ihrest
    rw [calculateComplexity_field, if_neg hskip]
    simp only
    have h1 : 0 ≤ (calculateFieldComplexity env v fdata child pt (c + 1)).complexity := by
      unfold calculateFieldComplexity childResultOf estArgsOf
      cases hres : resolveField pt fdata.name with
      | none => norm_num
      | some tf =>
        obtain ⟨t, fieldDef⟩ := tf
        simp only
        have hchild : 0 ≤ (childResultOf env v child fieldDef (c + 1)).complexity := by
          unfold childResultOf
          cases child with
          | none => norm_num
          | some cs =>
            have hc := ihchild fieldDef
            simp only at hc
            exact hc
        unfold fieldCost
        cases hest : firstFiniteEstimate env.estimators
            (mkEstimatorArgs (coercedArgs env fieldDef fdata)
              (childResultOf env v child fieldDef (c + 1)).complexity fieldDef fdata t) with
        | none =>
          simp only [childResultOf, mkEstimatorArgs] at hchild ⊢
          linarith
        | some w =>
          obtain ⟨e, hmem, hval⟩ := firstFiniteEstimate_mem _ _ _ hest
          have := hnn e hmem _ _ hval
          simp only [childResultOf, mkEstimatorArgs] at this ⊢
          linarith
    exact add_nonneg h1 ihrest
  · intro v pt c rest dirs tcond child hskip ih
    rw [calculateComplexity_inline, if_pos hskip]
    exact ih
  · intro v pt c rest dirs tcond hskip cs ftype fr ihc ihc2 ihrest
    rw [calculateComplexity_inline, if_neg hskip]
    simp only
    exact add_nonneg ihc2 ihrest
  · intro v pt c rest dirs tcond hskip ih
    rw [calculateComplexity_inline, if_neg hskip]
    exact ih
  · intro v pt c rest dirs name hskip ih
    rw [calculateComplexity_spread, if_pos hskip]
    exact ih
  · intro v pt c rest dirs name hskip hmem ih
    rw [calculateComplexity_spread, if_neg hskip, if_pos hmem]
    exact ih
  · intro v pt c rest dirs name hskip hmem frag hf ftype fr ihf ihf2 ihrest
    rw [calculateComplexity_spread, if_neg hskip, if_neg hmem]
    simp only [hf]
    exact add_nonneg ihf2 ihrest
  · intro v pt c rest dirs name hskip hmem hf ih
    rw [calculateComplexity_spread, if_neg hskip, if_neg hmem]
    simp only [hf]
    exact ih


/-- The directives attached to a selection node, whichever its kind. -/
def selectionDirectives : Selection → DirectivesNode
  | .field _ dirs _ => dirs
  | .inlineFrag dirs _ _ => dirs
  | .fragmentSpread dirs _ => dirs

theorem firstFiniteEstimate_none (es : List Estimator) (a : EstimatorArgs)
    (h : ∀ e ∈ es, ∀ w : ℚ, e a ≠ some (JSNumber.finite w)) :
    firstFiniteEstimate es a = none := by
  induction es with
  | nil => rfl
  | cons e t ih =>
    rw [firstFiniteEstimate]
    cases he : e a with
    | none => exact ih fun e2 hm => h e2 (List.mem_cons_of_mem _ hm)
    | some jn =>
      cases jn with
      | finite w => exact absurd he (h e (List.mem_cons_self _ _) w)
      | nan => exact ih fun e2 hm => h e2 (List.mem_cons_of_mem _ hm)
      | posInf => exact ih fun e2 hm => h e2 (List.mem_cons_of_mem _ hm)
      | negInf => exact ih fun e2 hm => h e2 (List.mem_cons_of_mem _ hm)

theorem firstFiniteEstimate_append (es1 : List Estimator) (e : Estimator)
    (es2 : List Estimator) (a : EstimatorArgs) (v : ℚ)
    (h1 : ∀ e2 ∈ es1, ∀ w : ℚ, e2 a ≠ some (JSNumber.finite w))
    (h2 : e a = some (JSNumber.finite v)) :
    firstFiniteEstimate (es1 ++ e :: es2) a = some v := by
  induction es1 with
  | nil =>
    rw [List.nil_append, firstFiniteEstimate, h2]
  | cons e0 t ih =>
    rw [List.cons_append, firstFiniteEstimate]
    cases he : e0 a with
    | none => exact ih fun e2 hm => h1 e2 (List.mem_cons_of_mem _ hm)
    | some jn =>
      cases jn with
      | finite w => exact absurd he (h1 e0 (List.mem_cons_self _ _) w)
      | nan => exact ih fun e2 hm => h1 e2 (List.mem_cons_of_mem _ hm)
      | posInf => exact ih fun e2 hm => h1 e2 (List.mem_cons_of_mem _ hm)
      | negInf => exact ih fun e2 hm => h1 e2 (List.mem_cons_of_mem _ hm)

/-- C3: for a resolvable field, the engine consults the estimators in
their declared order and uses the first result that is a finite number as
the field's cost; when every configured estimator declines, the cost is
exactly `1 + childComplexity`, where the child complexity is the computed
complexity of the field's nested selections. -/
theorem c3_estimator_chain_order (env : Env) (visited : List String)
    (fdata : FieldNodeData) (child : Option (List Selection))
    (parentType : Option TypeDef) (cnt : Nat) (t : TypeDef)
    (fieldDef : FieldDef)
    (hres : resolveField parentType fdata.name = some (t, fieldDef)) :
    (∀ es1 e es2 (v : ℚ), env.estimators = es1 ++ e :: es2 →
      (∀ e2 ∈ es1, ∀ w : ℚ,
        e2 (estArgsOf env visited fdata child t fieldDef cnt) ≠
          some (JSNumber.finite w)) →
      e (estArgsOf env visited fdata child t fieldDef cnt) =
          some (JSNumber.finite v) →
      (calculateFieldComplexity env visited fdata child parentType cnt).complexity
        = v) ∧
    ((∀ e2 ∈ env.estimators, ∀ w : ℚ,
        e2 (estArgsOf env visited fdata child t fieldDef cnt) ≠
          some (JSNumber.finite w)) →
      (calculateFieldComplexity env visited fdata child parentType cnt).complexity
        = 1 + (childResultOf env visited child fieldDef cnt).complexity) := by
  constructor
  · intro es1 e es2 v hsplit hdecl hfin
    unfold calculateFieldComplexity
    rw [hres]
    simp only
    unfold fieldCost
    rw [hsplit, firstFiniteEstimate_append es1 e es2 _ v hdecl hfin]
  · intro hdecl
    unfold calculateFieldComplexity
    rw [hres]
    simp only
    unfold fieldCost
    rw [firstFiniteEstimate_none _ _ hdecl]
    simp [estArgsOf, mkEstimatorArgs]

/-- C5: a selection node excluded by a conditional-inclusion directive (a
skip directive with a true condition or an include directive with a false
condition) increments the node count exactly once and is then skipped
entirely: no child traversal occurs and the node contributes zero
complexity, while its visitation is still counted. -/
theorem c5_excluded_node_skipped (env : Env) (visited : List String)
    (sel : Selection) (rest : List Selection) (parentType : Option TypeDef)
    (cnt : Nat)
    (h : shouldSkipNode (selectionDirectives sel) env.variableValues = true) :
    calculateComplexity env visited (sel :: rest) parentType cnt =
      calculateComplexity env visited rest parentType (cnt + 1) := by
  cases sel with
  | field fdata dirs child =>
    simp only [selectionDirectives] at h
    rw [calculateComplexity_field, if_pos h]
  | inlineFrag dirs tcond child =>
    simp only [selectionDirectives] at h
    rw [calculateComplexity_inline, if_pos h]
  | fragmentSpread dirs name =>
    simp only [selectionDirectives] at h
    rw [calculateComplexity_spread, if_pos h]

/-- C9: factory construction fails exactly for a non-positive or
non-finite maximum complexity or an empty estimator list; the check is
part of the factory itself, before any document is validated. -/
theorem c9_config_validation (opts : QueryComplexityOptions) :
    (∃ rule, createQueryComplexityValidator opts = Except.ok rule) ↔
      ((∃ q : ℚ, opts.maximumComplexity = JSNumber.finite q ∧ 0 < q) ∧
        opts.estimators ≠ []) := by
  constructor
  · rintro ⟨rule, h⟩
    unfold createQueryComplexityValidator at h
    split at h
    · exact absurd h (by simp)
    · split at h
      · exact absurd h (by simp)
      · rename_i h1 h2
        push_neg at h1
        obtain ⟨hfin, hle⟩ := h1
        refine ⟨?_, ?_⟩
        · cases hm : opts.maximumComplexity with
          | finite q =>
            refine ⟨q, rfl, ?_⟩
            rw [hm] at hle
            simp [jsLeZero] at hle
            exact hle
          | nan => rw [hm] at hfin; simp [jsIsFinite] at hfin
          | posInf => rw [hm] at hfin; simp [jsIsFinite] at hfin
          | negInf => rw [hm] at hfin; simp [jsIsFinite] at hfin
        · intro hnil
          rw [hnil] at h2
          simp at h2
  · rintro ⟨⟨q, hm, hq⟩, hne⟩
    refine ⟨opts, ?_⟩
    unfold createQueryComplexityValidator
    rw [hm]
    have h1 : ¬(jsIsFinite (JSNumber.finite q) = false ∨
        jsLeZero (JSNumber.finite q) = true) := by
      simp [jsIsFinite, jsLeZero]
      linarith
    rw [if_neg h1]
    have h2 : ¬opts.estimators.length = 0 := by
      simpa [List.length_eq_zero] using hne
    rw [if_neg h2]


/-- A concrete type and environment for small evaluations: one Query type
with a single leaf field `a`. -/
def c3FieldDef : FieldDef := ⟨"Int", none, none⟩

def c3QueryType : TypeDef := TypeDef.composite [("a", c3FieldDef)]

/-- An estimator that always declines. -/
def declineEst : Estimator := fun _ => none

/-- An estimator that always answers 7. -/
def constSevenEst : Estimator := fun _ => some (JSNumber.finite 7)

def c3Env : Env :=
  ⟨[("Query", c3QueryType)], [], [declineEst, constSevenEst], [],
   fun _ _ => Except.ok []⟩

def c3EnvAllDecline : Env :=
  ⟨[("Query", c3QueryType)], [], [declineEst], [], fun _ _ => Except.ok []⟩

theorem c3_witness :
    (calculateFieldComplexity c3Env [] ⟨"a", []⟩ none (some c3QueryType) 1).complexity
        = 7 ∧
    (calculateFieldComplexity c3EnvAllDecline [] ⟨"a", []⟩ none
        (some c3QueryType) 1).complexity
      = 1 + (childResultOf c3EnvAllDecline [] none c3FieldDef 1).complexity := by
  constructor
  · apply (c3_estimator_chain_order c3Env [] ⟨"a", []⟩ none (some c3QueryType) 1
      c3QueryType c3FieldDef rfl).1 [declineEst] constSevenEst [] 7 rfl
    · intro e2 hm w
      have : e2 = declineEst := by simpa using hm
      rw [this]
      simp [declineEst]
    · rfl
  · apply (c3_estimator_chain_order c3EnvAllDecline [] ⟨"a", []⟩ none
      (some c3QueryType) 1 c3QueryType c3FieldDef rfl).2
    intro e2 hm w
    have : e2 = declineEst := by simpa [c3EnvAllDecline] using hm
    rw [this]
    simp [declineEst]

/-- Directives carrying a literal `skip(if: true)`. -/
def skipTrueDirs : DirectivesNode := ⟨some (BoolValueNode.lit true), none⟩

def plainDirs : DirectivesNode := ⟨none, none⟩

theorem c5_witness :
    shouldSkipNode
        (selectionDirectives (Selection.field ⟨"a", []⟩ skipTrueDirs none))
        c3Env.variableValues = true ∧
    calculateComplexity c3Env [] [Selection.field ⟨"a", []⟩ skipTrueDirs none]
        (some c3QueryType) 0 =
      calculateComplexity c3Env [] [] (some c3QueryType) 1 :=
  ⟨by decide,
   c5_excluded_node_skipped c3Env [] (Selection.field ⟨"a", []⟩ skipTrueDirs none)
     [] (some c3QueryType) 0 (by decide)⟩

/-- A field whose extensions carry a defined non-numeric complexity value
and whose AST also carries a `@complexity(value: 2)` directive. -/
def c4Field : FieldDef :=
  ⟨"Post", some ExtensionValue.nonNumber,
   some [⟨"complexity", [("value", ValueNode.intValue 2)]⟩]⟩

def c4Args : EstimatorArgs := ⟨[], 3, c4Field, ⟨"posts", []⟩, TypeDef.composite []⟩

/-- C4 counterexample: this field carries declarative metadata (a schema
annotation with base value 2 and no multipliers), so by the claim the
estimator should return 2 + 1 x 3 = 5; the code returns no opinion,
because a defined non-numeric extensions value suppresses the directive
branch and then fails the final numeric check. -/
theorem c4_counterexample :
    fieldExtensionsEstimator c4Args = none ∧
    fieldExtensionsEstimator c4Args ≠ some (JSNumber.finite 5) := by
  constructor
  · rfl
  · decide

/-- C4 (amended): the estimator returns value + childComplexity for a
finite numeric extensions complexity; it returns base + (product of the
named multiplier arguments, missing or non-numeric entries contributing 1)
x childComplexity for a `@complexity` directive with an integer base, but
only when no extensions complexity value is present; it declines when no
metadata exists, and it also declines whenever a defined extensions value
is not a finite number, even if a directive annotation exists. -/
theorem c4_amended_metadata_estimator (o : EstimatorArgs) :
    (∀ c : ℚ,
      o.field.extComplexity = some (ExtensionValue.number (JSNumber.finite c)) →
      fieldExtensionsEstimator o = some (JSNumber.finite (c + o.childComplexity))) ∧
    (∀ ds d base, o.field.extComplexity = none →
      o.field.astDirectives = some ds →
      findDirective ds "complexity" = some d →
      assocLookup d.arguments "value" = some (ValueNode.intValue base) →
      fieldExtensionsEstimator o = some (JSNumber.finite
        ((base : ℚ) + directiveMultiplier o.args d * o.childComplexity))) ∧
    (o.field.extComplexity = none → o.field.astDirectives = none →
      fieldExtensionsEstimator o = none) ∧
    (∀ ev, o.field.extComplexity = some ev →
      (∀ c : ℚ, ev ≠ ExtensionValue.number (JSNumber.finite c)) →
      fieldExtensionsEstimator o = none) := by
  refine ⟨?_, ?_, ?_, ?_⟩
  · intro c hc
    unfold fieldExtensionsEstimator
    rw [hc]
  · intro ds d base hext hdirs hfind hval
    unfold fieldExtensionsEstimator
    simp only [hext, hdirs, hfind, hval]
  · intro hext hdirs
    unfold fieldExtensionsEstimator
    rw [hext, hdirs]
  · intro ev hev hne
    unfold fieldExtensionsEstimator
    rw [hev]
    cases ev with
    | nonNumber => rfl
    | number n =>
      cases n with
      | finite c => exact absurd rfl (hne c)
      | nan => rfl
      | posInf => rfl
      | negInf => rfl

def c4wDirective : DirectiveNode :=
  ⟨"complexity", [("value", ValueNode.intValue 1),
                  ("multipliers", ValueNode.listValue [ValueNode.stringValue "limit"])]⟩

def c4wField : FieldDef := ⟨"Post", none, some [c4wDirective]⟩

def c4wArgs : EstimatorArgs :=
  ⟨[("limit", ArgValue.number (JSNumber.finite 10))], 2, c4wField,
   ⟨"posts", []⟩, TypeDef.composite []⟩

def c4nField : FieldDef := ⟨"Post", none, none⟩

def c4nArgs : EstimatorArgs := ⟨[], 2, c4nField, ⟨"posts", []⟩, TypeDef.composite []⟩

theorem c4_amended_witness :
    fieldExtensionsEstimator c4wArgs = some (JSNumber.finite 21) ∧
    fieldExtensionsEstimator c4nArgs = none := by
  constructor
  · have h := (c4_amended_metadata_estimator c4wArgs).2.1 [c4wDirective]
      c4wDirective 1 rfl rfl rfl rfl
    rw [h]
    have hdm : directiveMultiplier c4wArgs.args c4wDirective = 10 := by
      simp [directiveMultiplier, assocLookup, multiplierProduct, c4wDirective,
        c4wArgs]
    rw [hdm]
    have h21 : ((1 : ℤ) : ℚ) + 10 * c4wArgs.childComplexity = 21 := by
      norm_num [c4wArgs]
    rw [h21]
  · exact (c4_amended_metadata_estimator c4nArgs).2.2.1 rfl rfl


/-- C6: a fragment spread whose name is already in the active expansion
set is skipped without recursion (one node visit, zero complexity), and
the walker's result is a finite non-negative complexity whenever every
configured estimator produces only non-negative finite estimates.  The
walker is a total function of this development (defined by well-founded
recursion on the fragment table outside the expansion path), which is the
termination guarantee for self-referential fragment chains. -/
theorem c6_cycle_guard (env : Env) (visited : List String)
    (sels : List Selection) (parentType : Option TypeDef) (cnt : Nat)
    (hnn : ∀ e ∈ env.estimators, ∀ a v, e a = some (JSNumber.finite v) → 0 ≤ v) :
    0 ≤ (calculateComplexity env visited sels parentType cnt).complexity ∧
    (∀ dirs name rest, shouldSkipNode dirs env.variableValues = false →
      name ∈ visited →
      calculateComplexity env visited
          (Selection.fragmentSpread dirs name :: rest) parentType cnt =
        calculateComplexity env visited rest parentType (cnt + 1)) := by
  constructor
  · exact complexity_nonneg env hnn visited sels parentType cnt
  · intro dirs name rest hskip hmem
    rw [calculateComplexity_spread, if_neg (by simp [hskip]), if_pos hmem]

/-- An estimator answering a constant 1. -/
def constOneEst : Estimator := fun _ => some (JSNumber.finite 1)

/-- An environment whose only fragment F spreads itself. -/
def cycEnv : Env :=
  ⟨[("T", TypeDef.composite [])],
   [("F", ⟨"T", [Selection.fragmentSpread plainDirs "F"]⟩)],
   [constOneEst], [], fun _ _ => Except.ok []⟩

theorem c6_witness :
    0 ≤ (calculateComplexity cycEnv [] [Selection.fragmentSpread plainDirs "F"]
        (some (TypeDef.composite [])) 0).complexity ∧
    calculateComplexity cycEnv ["F"]
        [Selection.fragmentSpread plainDirs "F"] (some (TypeDef.composite [])) 0 =
      calculateComplexity cycEnv ["F"] [] (some (TypeDef.composite [])) 1 := by
  have hnn : ∀ e ∈ cycEnv.estimators, ∀ a v,
      e a = some (JSNumber.finite v) → 0 ≤ v := by
    intro e he a v hv
    have he2 : e = constOneEst := by simpa [cycEnv] using he
    rw [he2] at hv
    simp [constOneEst] at hv
    rw [← hv]
    norm_num
  constructor
  · exact (c6_cycle_guard cycEnv [] [Selection.fragmentSpread plainDirs "F"]
      (some (TypeDef.composite [])) 0 hnn).1
  · exact (c6_cycle_guard cycEnv ["F"]
      [Selection.fragmentSpread plainDirs "F"] (some (TypeDef.composite [])) 0
      hnn).2 plainDirs "F" [] (by decide) (by decide)

/-- C7: the same non-cyclic fragment spread in two independent sibling
branches is expanded and costed in each branch: the name is pushed on the
expansion set for the duration of its own expansion only, so the total of
two sibling spreads is exactly twice the fragment's complexity. -/
theorem c7_fragment_reuse (env : Env) (visited : List String)
    (dirs : DirectivesNode) (name : String) (frag : FragmentDef)
    (parentType : Option TypeDef) (cnt : Nat)
    (hskip : shouldSkipNode dirs env.variableValues = false)
    (hmem : name ∉ visited)
    (hf : assocLookup env.fragments name = some frag) :
    (calculateComplexity env visited
        [Selection.fragmentSpread dirs name, Selection.fragmentSpread dirs name]
        parentType cnt).complexity =
      2 * (calculateComplexity env (name :: visited) frag.selections
            (assocLookup env.types frag.typeCondition) 0).complexity := by
  have hc := fun m => complexity_cnt_irrel env (name :: visited) frag.selections
    (assocLookup env.types frag.typeCondition) m 0
  rw [calculateComplexity_spread, if_neg (by simp [hskip]), if_neg hmem]
  simp only [hf]
  rw [calculateComplexity_spread, if_neg (by simp [hskip]), if_neg hmem]
  simp only [hf]
  rw [calculateComplexity_nil]
  simp only [hc]
  ring

def c7Frag : FragmentDef :=
  ⟨"T", [Selection.field ⟨"x", []⟩ plainDirs none]⟩

def c7Env : Env :=
  ⟨[("T", TypeDef.composite [])], [("F", c7Frag)], [constOneEst], [],
   fun _ _ => Except.ok []⟩

theorem c7_witness :
    (calculateComplexity c7Env []
        [Selection.fragmentSpread plainDirs "F", Selection.fragmentSpread plainDirs "F"]
        (some (TypeDef.composite [])) 0).complexity =
      2 * (calculateComplexity c7Env ["F"] c7Frag.selections
            (assocLookup c7Env.types c7Frag.typeCondition) 0).complexity :=
  c7_fragment_reuse c7Env [] plainDirs "F" c7Frag
    (some (TypeDef.composite [])) 0 (by decide) (by decide) rfl


/-- C8: when no error has yet been reported and an operation's visited
node count exceeds the ceiling, the rule reports exactly one structured
error for that operation -- the node-limit error -- and sets the reported
flag, regardless of whether the complexity limit is also exceeded (the
node-count check runs before the complexity check); and any reported
error suppresses the completion callback at document exit. -/
theorem c8_node_limit_first (opts : QueryComplexityOptions)
    (ctx : ValidationContextModel) (st : RuleState) (op : OperationDef)
    (sels : List Selection) (rootType : TypeDef)
    (hsel : op.selectionSet = some sels)
    (hroot : rootTypeFor (actualRoots opts ctx) op.op = some rootType)
    (hnoerr : st.hasReportedError = false)
    (hnodes : DEFAULT_MAX_NODES <
      (calculateComplexity (mkEnv ctx opts) [] sels (some rootType) 0).nodeCount) :
    (handleOperation opts ctx st op).errors =
      st.errors ++ [GQLError.nodeLimit DEFAULT_MAX_NODES
        (calculateComplexity (mkEnv ctx opts) [] sels (some rootType) 0).nodeCount] ∧
    (handleOperation opts ctx st op).hasReportedError = true ∧
    (∀ o2 st2, st2.hasReportedError = true → documentLeave o2 st2 = none) := by
  unfold handleOperation
  rw [hsel, hroot]
  simp only
  simp only [if_pos (And.intro hnodes hnoerr)]
  rw [if_neg (by simp)]
  refine ⟨rfl, rfl, ?_⟩
  intro o2 st2 h2
  unfold documentLeave
  rw [if_neg (by simp [h2])]

def c8Field : Selection := Selection.field ⟨"x", []⟩ plainDirs none

def c8Ctx : ValidationContextModel :=
  ⟨⟨some (TypeDef.composite []), none, none⟩, [], [], fun _ _ => Except.ok []⟩

def c8Opts : QueryComplexityOptions :=
  ⟨[simpleEstimator none], JSNumber.finite 1000000000, none, true, none, []⟩

def c8Op : OperationDef :=
  ⟨OperationType.query, some (List.replicate 10001 c8Field)⟩

theorem c8_replicate_eval (n : Nat) : ∀ cnt : Nat,
    calculateComplexity (mkEnv c8Ctx c8Opts) [] (List.replicate n c8Field)
      (some (TypeDef.composite [])) cnt = ⟨(n : ℚ), cnt + n⟩ := by
  induction n with
  | zero => intro cnt; simp [calculateComplexity_nil]
  | succ k ih =>
    intro cnt
    rw [List.replicate_succ]
    simp only [c8Field]
    rw [calculateComplexity_field, if_neg (by decide)]
    simp only
    have hfc : calculateFieldComplexity (mkEnv c8Ctx c8Opts) [] ⟨"x", []⟩ none
        (some (TypeDef.composite [])) (cnt + 1) = ⟨1, cnt + 1⟩ := rfl
    rw [hfc]
    simp only [c8Field] at ih
    rw [ih (cnt + 1)]
    simp only [ComplexityResult.mk.injEq]
    constructor
    · push_cast
      ring
    · omega

theorem c8_witness :
    DEFAULT_MAX_NODES <
      (calculateComplexity (mkEnv c8Ctx c8Opts) []
        (List.replicate 10001 c8Field) (some (TypeDef.composite [])) 0).nodeCount ∧
    (handleOperation c8Opts c8Ctx initialRuleState c8Op).errors =
      [GQLError.nodeLimit DEFAULT_MAX_NODES 10001] ∧
    (handleOperation c8Opts c8Ctx initialRuleState c8Op).hasReportedError = true := by
  have hn : (calculateComplexity (mkEnv c8Ctx c8Opts) []
      (List.replicate 10001 c8Field) (some (TypeDef.composite [])) 0).nodeCount
      = 10001 := by rw [c8_replicate_eval 10001 0]
  have h := c8_node_limit_first c8Opts c8Ctx initialRuleState c8Op
    (List.replicate 10001 c8Field) (TypeDef.composite []) rfl rfl rfl
    (by rw [hn]; decide)
  refine ⟨by rw [hn]; decide, ?_, h.2.1⟩
  rw [h.1, hn]
  rfl


/-- C10: over a document with several operations, the rule keeps a single
running total that each handled operation overwrites with its own
complexity; the completion callback fires once at document exit and, when
no error was reported, receives the complexity of the last handled
operation only, whatever earlier operations computed. -/
theorem c10_last_operation_wins (opts : QueryComplexityOptions)
    (ctx : ValidationContextModel) (ops0 : List OperationDef)
    (op : OperationDef) (sels : List Selection) (rootType : TypeDef)
    (hsel : op.selectionSet = some sels)
    (hroot : rootTypeFor (actualRoots opts ctx) op.op = some rootType)
    (hnoerr : (runDocument opts ctx (ops0 ++ [op])).hasReportedError = false)
    (hcb : opts.hasOnComplete = true) :
    documentLeave opts (runDocument opts ctx (ops0 ++ [op])) =
      some (calculateComplexity (mkEnv ctx opts) [] sels (some rootType) 0).complexity := by
  have hrun : runDocument opts ctx (ops0 ++ [op]) =
      handleOperation opts ctx (runDocument opts ctx ops0) op := by
    unfold runDocument
    rw [List.foldl_append]
    rfl
  have htot : (handleOperation opts ctx (runDocument opts ctx ops0) op).totalComplexity =
      (calculateComplexity (mkEnv ctx opts) [] sels (some rootType) 0).complexity := by
    unfold handleOperation
    rw [hsel, hroot]
    simp only
    split <;> split <;> rfl
  rw [hrun] at hnoerr ⊢
  unfold documentLeave
  rw [if_pos ⟨hcb, hnoerr⟩, htot]

def c10FieldA : Selection := Selection.field ⟨"a", []⟩ plainDirs none

def c10Ctx : ValidationContextModel :=
  ⟨⟨some c3QueryType, none, none⟩,
   [("Query", c3QueryType), ("Int", TypeDef.scalar)], [],
   fun _ _ => Except.ok []⟩

def c10Opts : QueryComplexityOptions :=
  ⟨[simpleEstimator none], JSNumber.finite 1000, none, true, none, []⟩

def c10Op1 : OperationDef := ⟨OperationType.query, some [c10FieldA, c10FieldA]⟩

def c10Op2 : OperationDef := ⟨OperationType.query, some [c10FieldA]⟩

theorem c10_witness :
    documentLeave c10Opts (runDocument c10Opts c10Ctx [c10Op1, c10Op2]) =
      some (calculateComplexity (mkEnv c10Ctx c10Opts) [] [c10FieldA]
        (some c3QueryType) 0).complexity := by
  apply c10_last_operation_wins c10Opts c10Ctx [c10Op1] c10Op2 [c10FieldA]
    c3QueryType rfl rfl ?_ rfl
  have h1 : calculateComplexity (mkEnv c10Ctx c10Opts) [] [c10FieldA, c10FieldA]
      (some c3QueryType) 0 = ⟨2, 2⟩ := by
    simp [c10FieldA, calculateComplexity_field, calculateComplexity_nil,
      calculateFieldComplexity, estArgsOf, childResultOf, mkEstimatorArgs,
      fieldCost, firstFiniteEstimate, resolveField, assocLookup, coercedArgs,
      shouldSkipNode, resolveIfArg, simpleEstimator, mkEnv, c10Ctx, c10Opts,
      c3QueryType, c3FieldDef, plainDirs]
    norm_num
  have h2 : calculateComplexity (mkEnv c10Ctx c10Opts) [] [c10FieldA]
      (some c3QueryType) 0 = ⟨1, 1⟩ := by
    simp [c10FieldA, calculateComplexity_field, calculateComplexity_nil,
      calculateFieldComplexity, estArgsOf, childResultOf, mkEstimatorArgs,
      fieldCost, firstFiniteEstimate, resolveField, assocLookup, coercedArgs,
      shouldSkipNode, resolveIfArg, simpleEstimator, mkEnv, c10Ctx, c10Opts,
      c3QueryType, c3FieldDef, plainDirs]
  show (runDocument c10Opts c10Ctx ([c10Op1] ++ [c10Op2])).hasReportedError = false
  unfold runDocument
  simp only [List.cons_append, List.nil_append, List.foldl_cons, List.foldl_nil]
  unfold handleOperation
  simp only [c10Op1, c10Op2]
  have hroot : rootTypeFor (actualRoots c10Opts c10Ctx) OperationType.query =
      some c3QueryType := rfl
  simp only [hroot]
  rw [h1, h2]
  norm_num [DEFAULT_MAX_NODES, jsGt, initialRuleState, c10Opts]


/-- A configuration with a custom node ceiling of 1 (the repo's own test
suite configures the same option with the value 4). -/
def c1Opts : QueryComplexityOptions :=
  ⟨[simpleEstimator none], JSNumber.finite 100, some 1, true, none, []⟩

/-- A two-node query `{ a a }` against the one-field Query type. -/
def c1Op : OperationDef := ⟨OperationType.query, some [c10FieldA, c10FieldA]⟩

/-- C1 (code bug): the produced validator compares the operation's node
count against the fixed default of 10000 and never reads the configured
`maximumNodeCount`.  With a configured ceiling of 1 and a two-node query
the rule reports no error at all, although the option record carries the
ceiling 1 and the walk visits 2 nodes (the repo's own test expects the
configured ceiling to be enforced). -/
theorem c1_node_ceiling_ignored :
    c1Opts.maximumNodeCount = some 1 ∧
    (calculateComplexity (mkEnv c10Ctx c1Opts) [] [c10FieldA, c10FieldA]
      (some c3QueryType) 0).nodeCount = 2 ∧
    (runDocument c1Opts c10Ctx [c1Op]).errors = [] ∧
    (runDocument c1Opts c10Ctx [c1Op]).hasReportedError = false := by
  have h1 : calculateComplexity (mkEnv c10Ctx c1Opts) [] [c10FieldA, c10FieldA]
      (some c3QueryType) 0 = ⟨2, 2⟩ := by
    simp [c10FieldA, calculateComplexity_field, calculateComplexity_nil,
      calculateFieldComplexity, estArgsOf, childResultOf, mkEstimatorArgs,
      fieldCost, firstFiniteEstimate, resolveField, assocLookup, coercedArgs,
      shouldSkipNode, resolveIfArg, simpleEstimator, mkEnv, c10Ctx, c1Opts,
      c3QueryType, c3FieldDef, plainDirs]
    norm_num
  refine ⟨rfl, by rw [h1], ?_, ?_⟩ <;>
  · unfold runDocument
    simp only [List.foldl_cons, List.foldl_nil]
    unfold handleOperation
    simp only [c1Op]
    have hroot : rootTypeFor (actualRoots c1Opts c10Ctx) OperationType.query =
        some c3QueryType := rfl
    simp only [hroot]
    rw [h1]
    norm_num [DEFAULT_MAX_NODES, jsGt, initialRuleState, c1Opts]

/-- The inner options record `getComplexity` builds for the rule. -/
def c2InnerOpts : QueryComplexityOptions :=
  ⟨[simpleEstimator none], JSNumber.finite MAX_SAFE_INTEGER, none, true,
   some c10Ctx.schemaRoots, []⟩

/-- C2 (code bug): when validation fails, the standalone entry point
raises a plain error whose only payload is the joined message string;
the `QueryComplexityValidationError` class of the source, which carries
the full underlying error list, is never what it raises. -/
theorem c2_plain_error :
    getComplexity c10Ctx [simpleEstimator none] [] [c10Op2]
        ["Cannot query field bad on type Query"] =
      Except.error "Query validation failed: Cannot query field bad on type Query" ∧
    (mkQueryComplexityValidationError
        ["Cannot query field bad on type Query"]).errors =
      ["Cannot query field bad on type Query"] := by
  have hv : createQueryComplexityValidator
      ⟨[simpleEstimator none], JSNumber.finite MAX_SAFE_INTEGER, none, true,
       some c10Ctx.schemaRoots, []⟩ = Except.ok c2InnerOpts := by
    unfold createQueryComplexityValidator c2InnerOpts
    rw [if_neg (by norm_num [jsIsFinite, jsLeZero, MAX_SAFE_INTEGER]),
        if_neg (by norm_num)]
  have h2 : calculateComplexity (mkEnv c10Ctx c2InnerOpts) [] [c10FieldA]
      (some c3QueryType) 0 = ⟨1, 1⟩ := by
    simp [c10FieldA, calculateComplexity_field, calculateComplexity_nil,
      calculateFieldComplexity, estArgsOf, childResultOf, mkEstimatorArgs,
      fieldCost, firstFiniteEstimate, resolveField, assocLookup, coercedArgs,
      shouldSkipNode, resolveIfArg, simpleEstimator, mkEnv, c10Ctx, c2InnerOpts,
      c3QueryType, c3FieldDef, plainDirs]
  have hrun : runDocument c2InnerOpts c10Ctx [c10Op2] =
      ⟨1, false, []⟩ := by
    unfold runDocument
    simp only [List.foldl_cons, List.foldl_nil]
    unfold handleOperation
    simp only [c10Op2]
    have hroot : rootTypeFor (actualRoots c2InnerOpts c10Ctx)
        OperationType.query = some c3QueryType := rfl
    simp only [hroot]
    rw [h2]
    norm_num [DEFAULT_MAX_NODES, jsGt, initialRuleState, c2InnerOpts,
      MAX_SAFE_INTEGER, initialRuleState]
  refine ⟨?_, rfl⟩
  unfold getComplexity
  simp only [hv, hrun]
  rfl


theorem c9_witness :
    (∃ rule, createQueryComplexityValidator
      ⟨[simpleEstimator none], JSNumber.finite 100, none, false, none, []⟩ =
        Except.ok rule) ∧
    ¬∃ rule, createQueryComplexityValidator
      ⟨[simpleEstimator none], JSNumber.finite 0, none, false, none, []⟩ =
        Except.ok rule := by
  constructor
  · exact (c9_config_validation _).mpr ⟨⟨100, rfl, by norm_num⟩, by simp⟩
  · intro h
    obtain ⟨⟨q, hq, hpos⟩, _⟩ := (c9_config_validation _).mp h
    simp only [JSNumber.finite.injEq] at hq
    rw [← hq] at hpos
    norm_num at hpos

end GQC
